import Mathlib

/-!
Verification of the web code-snippet retriever of the Strike project
scaffolder (`strike.js`).

The retriever subsystem is embedded shallowly:

* Bytes are `Nat`s below 256; JS strings become Lean `String`s (sequences
  of Unicode scalar values).
* The cache directory becomes an explicit file system `Fsys`: paths
  relative to the cache directory map to either readable contents
  (`Except.ok`) or a read failure (`Except.error`), mirroring that
  `fs.readFile` can reject, and a set of existing subdirectories; a
  write rejects (ENOENT) when its key names a file inside a missing
  subdirectory, which happens because the base64 key may contain `/`.
* Network behaviour is an explicit environment: for each query (resp.
  URL) and attempt index, the outcome of one fetch-and-parse round —
  either a thrown error or the list of harvested strings.
* The `for` loops of `fetchDuckDuckGo` / `fetchCodeSnippet` become
  structural recursions on the remaining attempt budget; `Promise.all`
  over `urls.map(...)` becomes an in-order `List.map`, which is exactly
  the order in which `Promise.all` collects its results.
-/

namespace Strike

/-- UTF-8 encoding of one Unicode scalar value, as Node's
`Buffer.from(string)` produces it byte by byte. -/
def utf8Char (c : Char) : List Nat :=
  let n := c.toNat
  if n < 128 then [n]
  else if n < 2048 then [192 + n / 64, 128 + n % 64]
  else if n < 65536 then [224 + n / 4096, 128 + n / 64 % 64, 128 + n % 64]
  else [240 + n / 262144, 128 + n / 4096 % 64, 128 + n / 64 % 64, 128 + n % 64]

/-- UTF-8 encoding of a character list (`Buffer.from(query)`). -/
def utf8L : List Char → List Nat
  | [] => []
  | c :: cs => utf8Char c ++ utf8L cs

/-- One step of a UTF-8 decoder, used to show the encoding is injective:
reads back the leading scalar value and returns the remaining bytes. -/
def utf8DecodeOne : List Nat → Option (Nat × List Nat)
  | [] => none
  | b :: bs =>
    if b < 128 then some (b, bs)
    else if b < 224 then
      match bs with
      | b2 :: r => some ((b - 192) * 64 + (b2 - 128), r)
      | [] => none
    else if b < 240 then
      match bs with
      | b2 :: b3 :: r => some ((b - 224) * 4096 + (b2 - 128) * 64 + (b3 - 128), r)
      | _ => none
    else
      match bs with
      | b2 :: b3 :: b4 :: r =>
        some ((b - 240) * 262144 + (b2 - 128) * 4096 + (b3 - 128) * 64 + (b4 - 128), r)
      | _ => none

/-- The base64 digit alphabet used by `Buffer.prototype.toString("base64")`
(RFC 4648, standard alphabet: `A-Z a-z 0-9 + /`). -/
def sextet (n : Nat) : Char :=
  if n < 26 then Char.ofNat (65 + n)
  else if n < 52 then Char.ofNat (71 + n)
  else if n < 62 then Char.ofNat (n - 4)
  else if n = 62 then '+'
  else '/'

/-- Standard base64 with `=` padding over a byte list, as
`Buffer.prototype.toString("base64")` computes it. -/
def base64 : List Nat → List Char
  | [] => []
  | [b1] => [sextet (b1 / 4), sextet (b1 % 4 * 16), '=', '=']
  | [b1, b2] => [sextet (b1 / 4), sextet (b1 % 4 * 16 + b2 / 16), sextet (b2 % 16 * 4), '=']
  | b1 :: b2 :: b3 :: rest =>
    sextet (b1 / 4) :: sextet (b1 % 4 * 16 + b2 / 16) ::
      sextet (b2 % 16 * 4 + b3 / 64) :: sextet (b3 % 64) :: base64 rest

/-- The cache file name of a query:
`Buffer.from(query).toString("base64") + ".txt"` (`strike.js:76`). -/
def cacheKey (query : String) : String :=
  String.mk (base64 (utf8L query.data)) ++ ".txt"

/-- A file name token is safe for use as a single path component only if
it contains no path separator. -/
def fsSafeToken (s : String) : Bool :=
  !(s.data.contains '/')

/-- The state of the cache directory. Paths are relative to `cacheDir`
(which itself always exists: `fs.ensureDir` at `strike.js:64`). `files`
maps a path to either readable contents or a storage error raised when
the file is read; `none` means absent. `dirs` records which subdirectory
paths exist — relevant because a cache key may contain `/`, which
`path.join` turns into a subdirectory path. -/
structure Fsys where
  files : String → Option (Except Unit String)
  dirs : String → Bool

/-- The path of the directory containing `name`: everything before the
last `/`, and `""` (the cache directory itself) when `name` has none. -/
def upToLastSlash : List Char → Option (List Char)
  | [] => none
  | c :: cs =>
    match upToLastSlash cs with
    | some l => some (c :: l)
    | none => if c = '/' then some [] else none

/-- The parent directory of a (relative) path. -/
def parentDir (name : String) : String :=
  match upToLastSlash name.data with
  | some l => String.mk l
  | none => ""

/-- Does a directory path exist? `""` is the cache directory itself. -/
def dirExists (fsys : Fsys) (d : String) : Bool :=
  d = "" || fsys.dirs d

/-- The store after a successful `fs.writeFile`: the entry is created or
overwritten, directories are untouched. -/
def writeFileFs (fsys : Fsys) (file data : String) : Fsys :=
  ⟨fun f => if f = file then some (Except.ok data) else fsys.files f, fsys.dirs⟩

/-- `getCached` (`strike.js:75-79`): if the file exists, read it — a read
error propagates, there is no handler; otherwise return `null`. -/
def getCached (fsys : Fsys) (query : String) : Except Unit (Option String) :=
  match fsys.files (cacheKey query) with
  | none => Except.ok none
  | some (Except.ok content) => Except.ok (some content)
  | some (Except.error e) => Except.error e

/-- `setCached` (`strike.js:81-84`): write the data under the query's
cache file name, overwriting. `fs.writeFile` does not create parent
directories, so when the key contains `/` and the subdirectory named by
everything before the last `/` does not exist, the write rejects with
ENOENT (creating nothing) — and `setCached` has no handler. -/
def setCached (fsys : Fsys) (query data : String) : Except Unit Fsys :=
  if dirExists fsys (parentDir (cacheKey query)) then
    Except.ok (writeFileFs fsys (cacheKey query) data)
  else Except.error ()

/-- Outcome of one fetch-and-parse attempt: a thrown error (timeout,
network or parse failure), or the list of strings harvested from the
page (hrefs for the search, code-element texts for the extractor). -/
def Attempt : Type := Except Unit (List String)

/-- Does an attempt yield no links (it threw, or the page had none)? -/
def noLinks : Attempt → Bool
  | Except.ok ls => ls.isEmpty
  | Except.error _ => true

/-- Result of running the retrying search: the returned links, how many
failure messages were logged, and how many fetches were issued. -/
structure SearchRun where
  links : List String
  logs : Nat
  fetches : Nat

/-- The loop body of `fetchDuckDuckGo` (`strike.js:126-139`): `outs i` is
what attempt `i` yields; `fuel` is the number of attempts left after the
current one (`fuel = 0` exactly when `i === retries`, the condition
guarding the log in the `catch`). -/
def searchGo (outs : Nat → Attempt) : Nat → Nat → SearchRun
  | _, 0 => ⟨[], 0, 0⟩
  | i, fuel + 1 =>
    match outs i with
    | Except.ok ls =>
      if ls.isEmpty then
        let r := searchGo outs (i + 1) fuel
        ⟨r.links, r.logs, r.fetches + 1⟩
      else ⟨ls.take 5, 0, 1⟩
    | Except.error _ =>
      let r := searchGo outs (i + 1) fuel
      ⟨r.links, if fuel = 0 then r.logs + 1 else r.logs, r.fetches + 1⟩

/-- `fetchDuckDuckGo(query, retries = 2)` (`strike.js:125-141`): up to
`retries + 1` attempts; an attempt that finds links returns them
truncated to the first 5; errors are swallowed, logged only when the
last attempt throws; fall through to `[]`. `outs` gives, per query and
attempt index, what that attempt's fetch-and-parse yields. -/
def fetchDuckDuckGo (outs : String → Nat → Attempt) (query : String)
    (retries : Nat := 2) : SearchRun :=
  searchGo (outs query) 0 (retries + 1)

/-- Result of running the snippet extractor on one URL. -/
structure SnippetRun where
  text : String
  logs : Nat
  fetches : Nat

/-- `codes.join("\n")` (`strike.js:151`). -/
def joinNl : List String → String
  | [] => ""
  | [s] => s
  | s :: rest => s ++ "\n" ++ joinNl rest

/-- `.slice(0, n)` on a JS string: the first `n` characters. -/
def takeChars (s : String) (n : Nat) : String :=
  String.mk (s.data.take n)

/-- The loop body of `fetchCodeSnippet` (`strike.js:144-155`), same loop
shape as the search: join the harvested code texts with newlines and
truncate to 5000 when any were found, else retry; fall through to `""`. -/
def snippetGo (outs : Nat → Attempt) : Nat → Nat → SnippetRun
  | _, 0 => ⟨"", 0, 0⟩
  | i, fuel + 1 =>
    match outs i with
    | Except.ok codes =>
      if codes.isEmpty then
        let r := snippetGo outs (i + 1) fuel
        ⟨r.text, r.logs, r.fetches + 1⟩
      else ⟨takeChars (joinNl codes) 5000, 0, 1⟩
    | Except.error _ =>
      let r := snippetGo outs (i + 1) fuel
      ⟨r.text, if fuel = 0 then r.logs + 1 else r.logs, r.fetches + 1⟩

/-- `fetchCodeSnippet(url, retries = 1)` (`strike.js:143-157`). -/
def fetchCodeSnippet (outs : String → Nat → Attempt) (url : String)
    (retries : Nat := 1) : SnippetRun :=
  snippetGo (outs url) 0 (retries + 1)

/-- The environment of one `fetchCodeFromWeb` call: the cache directory
contents, and what each search / snippet fetch attempt would yield. -/
structure Env where
  fsys : Fsys
  searchOuts : String → Nat → Attempt
  snippetOuts : String → Nat → Attempt

/-- Outcome of a completed `fetchCodeFromWeb` call: the returned text,
the cache directory afterwards, and how many network fetches ran. -/
structure Retrieved where
  text : String
  fsys : Fsys
  fetches : Nat

/-- `urls` in `fetchCodeFromWeb` (`strike.js:167-169`): the single search
task's links, flattened. The search query is
`description + " full project code"`. -/
def searchLinks (env : Env) (description : String) : List String :=
  (fetchDuckDuckGo env.searchOuts (description ++ " full project code")).links

/-- The snippet text the extractor produces for one URL under `env`. -/
def snippetOf (env : Env) (url : String) : String :=
  (fetchCodeSnippet env.snippetOuts url).text

/-- `snippets` in `fetchCodeFromWeb` (`strike.js:171`): one extraction per
link; `Promise.all` collects the results in list order. -/
def freshSnippets (env : Env) (description : String) : List String :=
  (searchLinks env description).map (snippetOf env)

/-- `validSnippet` in `fetchCodeFromWeb` (`strike.js:172`): the first
snippet, in search-rank order, longer than 200 characters. -/
def freshFound (env : Env) (description : String) : Option String :=
  (freshSnippets env description).find? (fun s => 200 < s.length)

/-- Network fetches the post-miss path issues: the search attempts plus
every snippet extraction's attempts. -/
def freshFetches (env : Env) (description : String) : Nat :=
  (fetchDuckDuckGo env.searchOuts (description ++ " full project code")).fetches +
    ((searchLinks env description).map
      (fun url => (fetchCodeSnippet env.snippetOuts url).fetches)).sum

/-- The post-cache-miss part of `fetchCodeFromWeb` (`strike.js:167-177`):
search once, extract a snippet from every link concurrently, pick the
first snippet longer than 200 characters, write it through the cache and
return it — the `await setCached` at `strike.js:174` is unguarded, so a
rejecting write propagates; return `""` and write nothing when no
snippet qualifies. -/
def fetchFresh (env : Env) (description : String) : Except Unit Retrieved :=
  match freshFound env description with
  | some v =>
    match setCached env.fsys description v with
    | Except.ok fsys => Except.ok ⟨v, fsys, freshFetches env description⟩
    | Except.error e => Except.error e
  | none => Except.ok ⟨"", env.fsys, freshFetches env description⟩

/-- `fetchCodeFromWeb(description)` (`strike.js:159-178`): consult the
cache first — `if (cached)` is JS truthiness, so both `null` and the
empty string fall through to the network path — and a cache read or
write error propagates out, since neither `await` is guarded. -/
def fetchCodeFromWeb (env : Env) (description : String) : Except Unit Retrieved :=
  match getCached env.fsys description with
  | Except.error e => Except.error e
  | Except.ok (some cached) =>
    if cached = "" then fetchFresh env description
    else Except.ok ⟨cached, env.fsys, 0⟩
  | Except.ok none => fetchFresh env description

/-- The text a `fetchCodeFromWeb` call hands to its caller (`""` when the
call rejected and returned nothing). -/
def retrieveText (env : Env) (description : String) : String :=
  match fetchCodeFromWeb env description with
  | Except.ok r => r.text
  | Except.error _ => ""

/-- The cache directory after a `fetchCodeFromWeb` call. -/
def retrieveFs (env : Env) (description : String) : Fsys :=
  match fetchCodeFromWeb env description with
  | Except.ok r => r.fsys
  | Except.error _ => env.fsys

/-- Whether a `fetchCodeFromWeb` call completed without rejecting. -/
def retrieveOk (env : Env) (description : String) : Bool :=
  match fetchCodeFromWeb env description with
  | Except.ok _ => true
  | Except.error _ => false

/-- Cache discipline invariant: every readable, non-empty entry is a
validated snippet — longer than 200 characters and at most 5000. -/
def CacheInv (fsys : Fsys) : Prop :=
  ∀ file content, fsys.files file = some (Except.ok content) → content ≠ "" →
    200 < content.length ∧ content.length ≤ 5000

/-- The cache directory as `ensureDir` leaves it at startup: no files,
no subdirectories. -/
def emptyFs : Fsys := ⟨fun _ => none, fun _ => false⟩

/-- A cache whose entry for query `"q"` exists but cannot be read. -/
def corruptFs : Fsys :=
  ⟨fun file => if file = cacheKey "q" then some (Except.error ()) else none,
    fun _ => false⟩

/-- A cache whose entry for query `"p"` exists but cannot be read. -/
def badFs : Fsys :=
  ⟨fun file => if file = cacheKey "p" then some (Except.error ()) else none,
    fun _ => false⟩

/-- An environment whose cache read for `"p"` fails; every network fetch
would succeed, yet the orchestrator still rejects. -/
def badEnv : Env :=
  ⟨badFs, fun _ _ => Except.ok ["url"], fun _ _ => Except.ok ["code"]⟩

/-- A 50-character string. -/
def str50 : String := String.mk (List.replicate 50 'a')

/-- A 300-character string. -/
def str300 : String := String.mk (List.replicate 300 'b')

/-- A 900-character string. -/
def str900 : String := String.mk (List.replicate 900 'c')

/-- Environment for the order-preserving-selection scenario: empty cache,
search yields `[u1, u2, u3]`, whose snippets have lengths 50, 300, 900. -/
def selEnv : Env :=
  ⟨emptyFs, fun _ _ => Except.ok ["u1", "u2", "u3"],
    fun url _ =>
      if url = "u1" then Except.ok [str50]
      else if url = "u2" then Except.ok [str300]
      else Except.ok [str900]⟩

/-- Environment where the search finds nothing at all. -/
def missEnv : Env :=
  ⟨emptyFs, fun _ _ => Except.ok [], fun _ _ => Except.ok []⟩

/-- A cache holding the text `"cached text"` for query `"h"`, plus an
environment around it whose every network fetch would throw. -/
def hitFs : Fsys :=
  ⟨fun file => if file = cacheKey "h" then some (Except.ok "cached text") else none,
    fun _ => false⟩

/-- Environment with a warm cache for `"h"` and a dead network. -/
def hitEnv : Env :=
  ⟨hitFs, fun _ _ => Except.error (), fun _ _ => Except.error ()⟩

/-- A cache holding the empty string for query `"e"`. -/
def emptyEntryFs : Fsys :=
  ⟨fun file => if file = cacheKey "e" then some (Except.ok "") else none,
    fun _ => false⟩

/-- Environment with an empty-string cache entry for `"e"` and a live
network path behind it. -/
def emptyEntryEnv : Env :=
  ⟨emptyEntryFs, fun _ _ => Except.ok ["u"], fun _ _ => Except.ok [str300]⟩

/-- Environment with an empty cache and a productive network path. -/
def goodEnv : Env :=
  ⟨emptyFs, fun _ _ => Except.ok ["u"], fun _ _ => Except.ok [str300]⟩

/-- The store after writing `"stored text"` for query `"q"` into the
fresh cache directory (this write succeeds: the key has no `/`). -/
def wroteFs : Fsys :=
  match setCached emptyFs "q" "stored text" with
  | Except.ok fsys => fsys
  | Except.error _ => emptyFs

/-- Search attempt schedule that throws twice, then succeeds. -/
def thirdTimeOuts : String → Nat → Attempt :=
  fun _ i => if i < 2 then Except.error () else Except.ok ["a", "b"]

/-- Search attempt schedule that always throws. -/
def allFailOuts : String → Nat → Attempt :=
  fun _ _ => Except.error ()


/-- C2 counterexample: for the query `"aa?"`, whose key `"YWE/.txt"`
names a file inside the non-existent subdirectory `"YWE"`, the write
itself rejects with ENOENT — `setCached` does not succeed — and, since a
rejected write creates nothing, a subsequent `getCached` still misses. -/
theorem setCached_getCached_fails_on_slash_key :
    setCached emptyFs "aa?" "text" = Except.error () ∧
    getCached emptyFs "aa?" = Except.ok none := by
  exact ⟨rfl, rfl⟩

/-- C2 amended: whenever the write succeeds — which it does exactly when
the parent directory of the query's key exists, in particular for every
key without `/` — `setCached(Q, T)` followed by `getCached(Q)` returns
exactly T. For a query whose key crosses into a missing subdirectory the
write rejects and nothing is stored. -/
theorem setCached_getCached_roundtrip (fsys : Fsys) (q t : String)
    (fsys2 : Fsys) (hw : setCached fsys q t = Except.ok fsys2) :
    getCached fsys2 q = Except.ok (some t) := by
  unfold setCached at hw
  split at hw
  · injection hw with hw
    subst hw
    simp [getCached, writeFileFs]
  · exact absurd hw (by simp)

/-- Witness for the amended C2: the write for query `"q"` (slash-free
key) into the fresh cache directory succeeds, and reading it back yields
the stored text. -/
theorem setCached_getCached_roundtrip_witness :
    getCached wroteFs "q" = Except.ok (some "stored text") :=
  setCached_getCached_roundtrip emptyFs "q" "stored text" wroteFs rfl

/-- C3 counterexample: on a cache whose entry for `"q"` exists but fails
to read, `getCached` rejects with the storage error instead of turning it
into a miss — there is no handler around `fs.readFile`. -/
theorem getCached_error_propagates :
    getCached corruptFs "q" = Except.error () := by
  simp [getCached, corruptFs]

/-- C3 amended: `getCached` returns the miss value when the backing entry
is absent, but a storage error while reading an existing entry is
propagated to the caller, not converted to a miss. -/
theorem getCached_miss_and_error_behavior (fsys : Fsys) (q : String) :
    (fsys.files (cacheKey q) = none → getCached fsys q = Except.ok none) ∧
    (∀ e, fsys.files (cacheKey q) = some (Except.error e) →
      getCached fsys q = Except.error e) := by
  constructor
  · intro h; simp [getCached, h]
  · intro e h; simp [getCached, h]

/-- Witness for the amended C3 at concrete inputs: the empty cache misses
for `"q"`, and the corrupt cache propagates its error for `"q"`. -/
theorem getCached_miss_and_error_behavior_witness :
    getCached emptyFs "q" = Except.ok none ∧
    getCached corruptFs "q" = Except.error () :=
  ⟨(getCached_miss_and_error_behavior emptyFs "q").1 rfl,
    (getCached_miss_and_error_behavior corruptFs "q").2 () (by simp [corruptFs])⟩

/-- C4 counterexample: an environment whose cache entry for `"p"` exists
but cannot be read makes `fetchCodeFromWeb` reject, even though every
network fetch would have succeeded. -/
theorem fetchCodeFromWeb_rejects_on_corrupt_cache :
    fetchCodeFromWeb badEnv "p" = Except.error () := by
  simp [fetchCodeFromWeb, getCached, badEnv, badFs]

/-- Under a writable key, the fresh path always completes: its only
error source is the unguarded cache write. -/
theorem fetchFresh_ok_of_writable (env : Env) (q : String)
    (hwrite : dirExists env.fsys (parentDir (cacheKey q)) = true) :
    fetchFresh env q =
      Except.ok (match freshFound env q with
        | some v => ⟨v, writeFileFs env.fsys (cacheKey q) v, freshFetches env q⟩
        | none => ⟨"", env.fsys, freshFetches env q⟩) := by
  unfold fetchFresh setCached
  cases freshFound env q <;> simp [hwrite]

/-- C4 amended: as long as the query's cache entry is absent or readable
and the query's cache file is writable (its key's parent directory is
the cache directory itself or exists), `fetchCodeFromWeb` never rejects,
whatever the network does — fetch timeouts, network errors and parse
errors of every attempt are absorbed inside the components. Either
storage condition failing can reject the call through the unguarded
`getCached` / `setCached` awaits. -/
theorem fetchCodeFromWeb_no_reject_without_storage_error (env : Env) (q : String)
    (hread : env.fsys.files (cacheKey q) = none ∨
      ∃ c, env.fsys.files (cacheKey q) = some (Except.ok c))
    (hwrite : dirExists env.fsys (parentDir (cacheKey q)) = true) :
    retrieveOk env q = true := by
  have hfresh := fetchFresh_ok_of_writable env q hwrite
  rcases hread with h | ⟨c, h⟩
  · simp [retrieveOk, fetchCodeFromWeb, getCached, h, hfresh]
  · by_cases hc : c = "" <;>
      simp [retrieveOk, fetchCodeFromWeb, getCached, h, hc, hfresh]

/-- Witness for the amended C4: with an empty cache, a slash-free key and
a live network, the call completes. -/
theorem fetchCodeFromWeb_no_reject_without_storage_error_witness :
    retrieveOk goodEnv "x" = true :=
  fetchCodeFromWeb_no_reject_without_storage_error goodEnv "x" (Or.inl rfl)
    (by decide)

/-- C7: on a cache hit the orchestrator returns the cached text unchanged,
leaves the cache alone, and issues zero network fetches; the result does
not depend on the search or snippet components at all. -/
theorem cache_hit_returns_cached_no_network (env : Env) (q c : String)
    (hhit : env.fsys.files (cacheKey q) = some (Except.ok c)) (hne : c ≠ "") :
    fetchCodeFromWeb env q = Except.ok ⟨c, env.fsys, 0⟩ := by
  simp [fetchCodeFromWeb, getCached, hhit, hne]

/-- Witness for C7: a warm cache for `"h"` with a dead network still
returns the cached text with zero fetches. -/
theorem cache_hit_returns_cached_no_network_witness :
    fetchCodeFromWeb hitEnv "h" = Except.ok ⟨"cached text", hitFs, 0⟩ :=
  cache_hit_returns_cached_no_network hitEnv "h" "cached text"
    (by simp [hitEnv, hitFs]) (by decide)

/-- C10: a cache entry holding the empty string is rejected by the JS
truthiness test, so the orchestrator proceeds with the full network path
rather than returning the cached empty string. -/
theorem empty_cache_entry_treated_as_miss (env : Env) (q : String)
    (h : env.fsys.files (cacheKey q) = some (Except.ok "")) :
    fetchCodeFromWeb env q = fetchFresh env q := by
  simp [fetchCodeFromWeb, getCached, h]

/-- Witness for C10 at a concrete environment with an empty-string entry
for `"e"`. -/
theorem empty_cache_entry_treated_as_miss_witness :
    fetchCodeFromWeb emptyEntryEnv "e" = fetchFresh emptyEntryEnv "e" :=
  empty_cache_entry_treated_as_miss emptyEntryEnv "e"
    (by simp [emptyEntryEnv, emptyEntryFs])

/-- The search loop issues at most as many fetches as it has attempts. -/
theorem searchGo_fetches_le (outs : Nat → Attempt) :
    ∀ fuel i, (searchGo outs i fuel).fetches ≤ fuel := by
  intro fuel
  induction fuel with
  | zero => intro i; simp [searchGo]
  | succ n ih =>
    intro i
    simp only [searchGo]
    cases outs i with
    | ok ls =>
      by_cases h : ls.isEmpty <;> simp [h]
      have := ih (i + 1)
      omega
    | error e =>
      simp only
      have := ih (i + 1)
      omega

/-- The search loop logs at most one failure message. -/
theorem searchGo_logs_le (outs : Nat → Attempt) :
    ∀ fuel i, (searchGo outs i fuel).logs ≤ 1 := by
  intro fuel
  induction fuel with
  | zero => intro i; simp [searchGo]
  | succ n ih =>
    intro i
    simp only [searchGo]
    cases outs i with
    | ok ls =>
      by_cases h : ls.isEmpty <;> simp [h]
      exact ih (i + 1)
    | error e =>
      by_cases hn : n = 0
      · subst hn; simp [searchGo]
      · simp [hn]
        exact ih (i + 1)

/-- If the first `k` attempts yield no links and attempt `k` yields a
non-empty link list, the loop stops there: it returns those links
truncated to 5, logs nothing, and has fetched exactly `k + 1` times. -/
theorem searchGo_success (outs : Nat → Attempt) :
    ∀ fuel i k, k < fuel →
      (∀ j, j < k → noLinks (outs (i + j)) = true) →
      ∀ ls, outs (i + k) = Except.ok ls → ls ≠ [] →
      searchGo outs i fuel = ⟨ls.take 5, 0, k + 1⟩ := by
  intro fuel
  induction fuel with
  | zero => intro i k hk; omega
  | succ n ih =>
    intro i k hk hb ls hout hne
    cases k with
    | zero =>
      simp only [Nat.add_zero] at hout
      have hemp : ls.isEmpty = false := by
        cases ls
        · exact absurd rfl hne
        · rfl
      simp [searchGo, hout, hemp]
    | succ k' =>
      have h0 : noLinks (outs i) = true := by
        simpa using hb 0 (Nat.succ_pos _)
      have hrec : searchGo outs (i + 1) n = ⟨ls.take 5, 0, k' + 1⟩ := by
        refine ih (i + 1) k' (by omega) ?_ ls ?_ hne
        · intro j hj
          have := hb (j + 1) (by omega)
          rwa [show i + (j + 1) = i + 1 + j by omega] at this
        · rwa [show i + 1 + k' = i + (k' + 1) by omega]
      simp only [searchGo]
      cases houts : outs i with
      | ok l0 =>
        have hemp : l0.isEmpty = true := by
          rw [houts] at h0; simpa [noLinks] using h0
        simp [hemp, hrec]
      | error e =>
        have hn : n ≠ 0 := by omega
        rw [houts] at h0
        simp [hn, hrec]

/-- If every attempt throws, the loop returns no links, logs exactly one
failure message (in the final attempt's handler), and fetched on every
attempt. -/
theorem searchGo_allfail (outs : Nat → Attempt) :
    ∀ fuel i, 0 < fuel → (∀ j, j < fuel → outs (i + j) = Except.error ()) →
      searchGo outs i fuel = ⟨[], 1, fuel⟩ := by
  intro fuel
  induction fuel with
  | zero => intro i h; omega
  | succ n ih =>
    intro i _ hall
    have h0 : outs i = Except.error () := by
      simpa using hall 0 (Nat.succ_pos _)
    cases n with
    | zero => simp [searchGo, h0]
    | succ m =>
      have hrec : searchGo outs (i + 1) (m + 1) = ⟨[], 1, m + 1⟩ := by
        refine ih (i + 1) (Nat.succ_pos _) ?_
        intro j hj
        have := hall (j + 1) (by omega)
        rwa [show i + (j + 1) = i + 1 + j by omega] at this
      conv_lhs => rw [searchGo, h0]
      rw [hrec]
      simp

/-- C6: the retrying search makes at most `retries + 1` fetch attempts
and never throws; it returns, with at most one log message overall: the
first attempt yielding links wins immediately (truncated to the first 5,
no log, exactly that many fetches); and when every attempt throws it
returns the empty list having logged exactly once, after the final
attempt. -/
theorem fetchDuckDuckGo_retry_spec (outs : String → Nat → Attempt)
    (q : String) (retries : Nat) :
    (fetchDuckDuckGo outs q retries).fetches ≤ retries + 1 ∧
    (fetchDuckDuckGo outs q retries).logs ≤ 1 ∧
    (∀ k, k ≤ retries → (∀ j, j < k → noLinks (outs q j) = true) →
      ∀ ls, outs q k = Except.ok ls → ls ≠ [] →
      fetchDuckDuckGo outs q retries = ⟨ls.take 5, 0, k + 1⟩) ∧
    ((∀ j, j ≤ retries → outs q j = Except.error ()) →
      fetchDuckDuckGo outs q retries = ⟨[], 1, retries + 1⟩) := by
  refine ⟨searchGo_fetches_le _ _ _, searchGo_logs_le _ _ _, ?_, ?_⟩
  · intro k hk hb ls hout hne
    exact searchGo_success (outs q) (retries + 1) 0 k (by omega)
      (fun j hj => by simpa using hb j hj) ls (by simpa using hout) hne
  · intro hall
    exact searchGo_allfail (outs q) (retries + 1) 0 (Nat.succ_pos _)
      (fun j hj => by simpa using hall j (by omega))

/-- Witness for C6: a search that throws twice then succeeds on the third
attempt returns that result having fetched three times and logged
nothing; one that throws on all three attempts returns the empty list
with exactly one log message. -/
theorem fetchDuckDuckGo_retry_spec_witness :
    fetchDuckDuckGo thirdTimeOuts "q" 2 = ⟨["a", "b"].take 5, 0, 3⟩ ∧
    fetchDuckDuckGo allFailOuts "q" 2 = ⟨[], 1, 3⟩ := by
  constructor
  · exact (fetchDuckDuckGo_retry_spec thirdTimeOuts "q" 2).2.2.1 2
      (Nat.le_refl 2) (fun j hj => by interval_cases j <;> rfl)
      ["a", "b"] rfl (by decide)
  · exact (fetchDuckDuckGo_retry_spec allFailOuts "q" 2).2.2.2
      (fun j _ => rfl)

/-- `find?` returns exactly the element at the first index whose entry
satisfies the predicate. -/
theorem find?_first (p : String → Bool) :
    ∀ (l : List String) (k : Nat), k < l.length →
      (∀ j, j < k → p (l.getD j "") = false) →
      p (l.getD k "") = true →
      l.find? p = some (l.getD k "") := by
  intro l
  induction l with
  | nil => intro k hk; simp at hk
  | cons a t ih =>
    intro k hk hb hp
    cases k with
    | zero =>
      rw [List.getD_cons_zero] at hp ⊢
      rw [List.find?_cons_of_pos _ hp]
    | succ k' =>
      have ha : p a = false := by
        simpa using hb 0 (Nat.succ_pos _)
      rw [List.find?_cons_of_neg _ (by simp [ha])]
      rw [List.getD_cons_succ]
      refine ih k' (by simpa using hk) ?_ (by simpa using hp)
      intro j hj
      simpa using hb (j + 1) (by omega)

/-- `getD` with the same default commutes with `map`, below the length. -/
theorem getD_map_str (f : String → String) :
    ∀ (l : List String) (j : Nat), j < l.length →
      (l.map f).getD j "" = f (l.getD j "") := by
  intro l
  induction l with
  | nil => intro j hj; simp at hj
  | cons a t ih =>
    intro j hj
    cases j with
    | zero => simp
    | succ j' =>
      simp only [List.map_cons, List.getD_cons_succ]
      exact ih j' (by simpa using hj)

set_option maxRecDepth 4000 in
/-- C1 counterexample: for the query `"aa?"` the fan-out does select a
winning snippet (the 300-character extraction qualifies), yet the
orchestrator rejects instead of returning it: the winner's cache write
targets the key `"YWE/.txt"` inside a missing subdirectory, and the
unguarded `await setCached` at `strike.js:174` propagates the ENOENT
rejection. -/
theorem fetchCodeFromWeb_rejects_despite_winner :
    freshFound goodEnv "aa?" = some str300 ∧
    fetchCodeFromWeb goodEnv "aa?" = Except.error () := by
  exact ⟨by decide, rfl⟩

/-- C1 amended: on a cache miss, the orchestrator scans the snippets in
the original search-rank order of the URLs, selects the first whose
length exceeds 200 characters, and — provided the cache write of the
query's key succeeds (its parent directory exists, in particular
whenever the key has no `/`) — returns it. The embedding has no notion
of completion time — `Promise.all` collects extraction results in URL
order — so the winner depends only on this order. -/
theorem fetchCodeFromWeb_order_selection (env : Env) (q : String)
    (hmiss : env.fsys.files (cacheKey q) = none)
    (hwrite : dirExists env.fsys (parentDir (cacheKey q)) = true) (k : Nat)
    (hk : k < (searchLinks env q).length)
    (hb : ∀ j, j < k → (snippetOf env ((searchLinks env q).getD j "")).length ≤ 200)
    (hw : 200 < (snippetOf env ((searchLinks env q).getD k "")).length) :
    retrieveText env q = snippetOf env ((searchLinks env q).getD k "") := by
  have hfound : freshFound env q = some (snippetOf env ((searchLinks env q).getD k "")) := by
    unfold freshFound freshSnippets
    have hgk := getD_map_str (snippetOf env) (searchLinks env q) k hk
    have := find?_first (fun s => decide (200 < s.length))
      ((searchLinks env q).map (snippetOf env)) k (by simpa using hk)
      (fun j hj => by
        rw [getD_map_str (snippetOf env) (searchLinks env q) j (by omega)]
        simpa using hb j hj)
      (by rw [hgk]; simpa using hw)
    rw [this, hgk]
  have hrun : fetchCodeFromWeb env q = fetchFresh env q := by
    simp [fetchCodeFromWeb, getCached, hmiss]
  unfold retrieveText
  rw [hrun, fetchFresh_ok_of_writable env q hwrite, hfound]

set_option maxRecDepth 4000 in
/-- Witness for the amended C1, the spec's own scenario: three URLs whose
snippets have lengths 50, 300 and 900, a writable (slash-free) key; the
second snippet is returned. -/
theorem fetchCodeFromWeb_order_selection_witness :
    retrieveText selEnv "dash" = snippetOf selEnv ((searchLinks selEnv "dash").getD 1 "") :=
  fetchCodeFromWeb_order_selection selEnv "dash" rfl (by decide) 1
    (by decide)
    (by intro j hj
        have : j = 0 := by omega
        subst this
        decide)
    (by decide)

/-- C5: when the cache has no entry for the query and the orchestrator
comes back empty, nothing was written: the cache still misses for that
query afterwards. -/
theorem no_cache_write_on_empty_result (env : Env) (q : String)
    (hmiss : env.fsys.files (cacheKey q) = none)
    (hempty : retrieveText env q = "") :
    getCached (retrieveFs env q) q = Except.ok none := by
  have hrun : fetchCodeFromWeb env q = fetchFresh env q := by
    simp [fetchCodeFromWeb, getCached, hmiss]
  cases hfind : freshFound env q with
  | some v =>
    have hlen : 200 < v.length := by simpa using List.find?_some hfind
    cases hset : setCached env.fsys q v with
    | ok fs2 =>
      exfalso
      have hff : fetchCodeFromWeb env q = Except.ok ⟨v, fs2, freshFetches env q⟩ := by
        rw [hrun]
        simp only [fetchFresh, hfind, hset]
      have hv : retrieveText env q = v := by
        unfold retrieveText
        rw [hff]
      rw [hempty] at hv
      rw [← hv] at hlen
      simp [String.length] at hlen
    | error e =>
      have hff : fetchCodeFromWeb env q = Except.error e := by
        rw [hrun]
        simp only [fetchFresh, hfind, hset]
      unfold retrieveFs
      rw [hff]
      simp [getCached, hmiss]
  | none =>
    have hff : fetchCodeFromWeb env q = Except.ok ⟨"", env.fsys, freshFetches env q⟩ := by
      rw [hrun]
      simp only [fetchFresh, hfind]
    unfold retrieveFs
    rw [hff]
    simp [getCached, hmiss]

set_option maxRecDepth 4000 in
/-- Witness for C5: an environment whose search finds nothing returns the
empty string, and the query still misses afterwards. -/
theorem no_cache_write_on_empty_result_witness :
    getCached (retrieveFs missEnv "m") "m" = Except.ok none :=
  no_cache_write_on_empty_result missEnv "m" rfl (by decide)

/-- The extractor's text is always truncated to at most 5000 characters
(or is the empty fallback). -/
theorem snippetGo_text_le (outs : Nat → Attempt) :
    ∀ fuel i, (snippetGo outs i fuel).text.length ≤ 5000 := by
  intro fuel
  induction fuel with
  | zero => intro i; simp [snippetGo, String.length]
  | succ n ih =>
    intro i
    simp only [snippetGo]
    cases outs i with
    | ok codes =>
      by_cases h : codes.isEmpty <;> simp [h]
      · exact ih (i + 1)
      · show (takeChars (joinNl codes) 5000).length ≤ 5000
        simp only [takeChars, String.length, String.mk]
        rw [List.length_take]
        omega
    | error e =>
      simp only
      exact ih (i + 1)

/-- Every snippet the fan-out produces is at most 5000 characters. -/
theorem snippetOf_le (env : Env) (url : String) :
    (snippetOf env url).length ≤ 5000 :=
  snippetGo_text_le (env.snippetOuts url) 2 0

/-- The post-miss path keeps the cache invariant and only hands back
validated text: when it completes, a non-empty result is between 201 and
5000 characters, and the store it leaves behind respects the discipline
(a failed write rejects the call and changes nothing). -/
theorem fetchFresh_inv (env : Env) (q : String) (hinv : CacheInv env.fsys)
    (r : Retrieved) (h : fetchFresh env q = Except.ok r) :
    (r.text ≠ "" → 200 < r.text.length ∧ r.text.length ≤ 5000) ∧
    CacheInv r.fsys := by
  cases hfind : freshFound env q with
  | none =>
    have hff : fetchFresh env q = Except.ok ⟨"", env.fsys, freshFetches env q⟩ := by
      simp only [fetchFresh, hfind]
    rw [hff] at h
    injection h with h
    subst h
    exact ⟨fun hx => absurd rfl hx, hinv⟩
  | some v =>
    have hlen : 200 < v.length := by simpa using List.find?_some hfind
    have hmem := List.mem_of_find?_eq_some hfind
    have hle : v.length ≤ 5000 := by
      unfold freshSnippets at hmem
      obtain ⟨u, _, rfl⟩ := List.mem_map.mp hmem
      exact snippetOf_le env u
    cases hset : setCached env.fsys q v with
    | error e =>
      have hff : fetchFresh env q = Except.error e := by
        simp only [fetchFresh, hfind, hset]
      rw [hff] at h
      exact absurd h (by simp)
    | ok fs2 =>
      have hff : fetchFresh env q = Except.ok ⟨v, fs2, freshFetches env q⟩ := by
        simp only [fetchFresh, hfind, hset]
      rw [hff] at h
      injection h with h
      subst h
      refine ⟨fun _ => ⟨hlen, hle⟩, ?_⟩
      unfold setCached at hset
      split at hset
      · injection hset with hset
        subst hset
        intro file content hfc hne
        by_cases hf : file = cacheKey q
        · have hcv : content = v := by
            simp [writeFileFs, hf] at hfc
            exact hfc.symm
          subst hcv
          exact ⟨hlen, hle⟩
        · exact hinv file content (by simpa [writeFileFs, hf] using hfc) hne
      · exact absurd hset (by simp)

/-- C9: under the cache discipline — every readable non-empty entry is a
validated snippet — any non-empty text the orchestrator returns has more
than 200 and at most 5000 characters, and the discipline is preserved:
the fresh path only writes snippets that passed the 200-character test
and were truncated to 5000. -/
theorem retrieve_length_invariant (env : Env) (q : String)
    (hinv : CacheInv env.fsys) :
    (retrieveText env q ≠ "" →
      200 < (retrieveText env q).length ∧ (retrieveText env q).length ≤ 5000) ∧
    CacheInv (retrieveFs env q) := by
  unfold retrieveText retrieveFs
  cases hrun : fetchCodeFromWeb env q with
  | error e => exact ⟨fun h => absurd rfl h, hinv⟩
  | ok r =>
    cases hfs : env.fsys.files (cacheKey q) with
    | none =>
      have heq : fetchCodeFromWeb env q = fetchFresh env q := by
        simp [fetchCodeFromWeb, getCached, hfs]
      rw [heq] at hrun
      exact fetchFresh_inv env q hinv r hrun
    | some entry =>
      cases entry with
      | error e =>
        have heq : fetchCodeFromWeb env q = Except.error e := by
          simp [fetchCodeFromWeb, getCached, hfs]
        rw [heq] at hrun
        simp at hrun
      | ok c =>
        by_cases hc : c = ""
        · subst hc
          have heq : fetchCodeFromWeb env q = fetchFresh env q := by
            simp [fetchCodeFromWeb, getCached, hfs]
          rw [heq] at hrun
          exact fetchFresh_inv env q hinv r hrun
        · have heq : fetchCodeFromWeb env q = Except.ok ⟨c, env.fsys, 0⟩ := by
            simp [fetchCodeFromWeb, getCached, hfs, hc]
          rw [heq] at hrun
          injection hrun with hrun
          subst hrun
          exact ⟨fun _ => hinv (cacheKey q) c hfs hc, hinv⟩

set_option maxRecDepth 4000 in
/-- Witness for C9: an empty cache trivially satisfies the discipline,
and the concrete 300-character snippet the network yields is within the
bounds. -/
theorem retrieve_length_invariant_witness :
    200 < (retrieveText goodEnv "w").length ∧
      (retrieveText goodEnv "w").length ≤ 5000 :=
  (retrieve_length_invariant goodEnv "w"
    (fun file content h => by simp [goodEnv, emptyFs] at h)).1 (by decide)

/-- Unicode scalar values are below 0x110000. -/
theorem char_toNat_lt (c : Char) : c.toNat < 1114112 := by
  have h := c.valid
  unfold UInt32.isValidChar Nat.isValidChar at h
  rcases h with h | ⟨h1, h2⟩
  · show c.val.toNat < 1114112
    omega
  · exact h2

/-- Characters with the same scalar value are equal. -/
theorem char_toNat_inj {a b : Char} (h : a.toNat = b.toNat) : a = b :=
  Char.ext (UInt32.ext h)

/-- The UTF-8 encoding of one character is never empty. -/
theorem utf8Char_ne_nil (c : Char) : utf8Char c ≠ [] := by
  unfold utf8Char
  dsimp only
  split_ifs <;> simp

/-- Every UTF-8 byte is below 256. -/
theorem utf8Char_lt (c : Char) : ∀ b ∈ utf8Char c, b < 256 := by
  have h := char_toNat_lt c
  unfold utf8Char
  dsimp only
  split_ifs with h1 h2 h3 <;> intro b hb <;> simp only [List.mem_cons,
    List.mem_singleton, List.not_mem_nil, or_false] at hb
  · omega
  · rcases hb with rfl | rfl <;> omega
  · rcases hb with rfl | rfl | rfl <;> omega
  · rcases hb with rfl | rfl | rfl | rfl <;> omega

/-- Every byte of an encoded character list is below 256. -/
theorem utf8L_lt : ∀ (l : List Char), ∀ b ∈ utf8L l, b < 256 := by
  intro l
  induction l with
  | nil => intro b hb; simp [utf8L] at hb
  | cons c cs ih =>
    intro b hb
    simp only [utf8L, List.mem_append] at hb
    rcases hb with hb | hb
    · exact utf8Char_lt c b hb
    · exact ih b hb

/-- The decoder reads back exactly the character it was handed, leaving
the remaining bytes untouched. -/
theorem utf8DecodeOne_encode (c : Char) (rest : List Nat) :
    utf8DecodeOne (utf8Char c ++ rest) = some (c.toNat, rest) := by
  have h := char_toNat_lt c
  unfold utf8Char
  dsimp only
  split_ifs with h1 h2 h3
  · simp [utf8DecodeOne, h1]
  · show utf8DecodeOne ((192 + c.toNat / 64) :: (128 + c.toNat % 64) :: rest) = _
    simp only [utf8DecodeOne]
    rw [if_neg (by omega), if_pos (by omega)]
    simp only [Option.some.injEq, Prod.mk.injEq]
    exact ⟨by omega, by simp⟩
  · show utf8DecodeOne ((224 + c.toNat / 4096) :: (128 + c.toNat / 64 % 64) ::
      (128 + c.toNat % 64) :: rest) = _
    simp only [utf8DecodeOne]
    rw [if_neg (by omega), if_neg (by omega), if_pos (by omega)]
    simp only [Option.some.injEq, Prod.mk.injEq]
    exact ⟨by omega, by simp⟩
  · show utf8DecodeOne ((240 + c.toNat / 262144) :: (128 + c.toNat / 4096 % 64) ::
      (128 + c.toNat / 64 % 64) :: (128 + c.toNat % 64) :: rest) = _
    simp only [utf8DecodeOne]
    rw [if_neg (by omega), if_neg (by omega), if_neg (by omega)]
    simp only [Option.some.injEq, Prod.mk.injEq]
    exact ⟨by omega, by simp⟩

/-- UTF-8 encoding of character lists is injective. -/
theorem utf8L_inj : ∀ {s t : List Char}, utf8L s = utf8L t → s = t := by
  intro s
  induction s with
  | nil =>
    intro t h
    cases t with
    | nil => rfl
    | cons c cs =>
      exfalso
      simp only [utf8L] at h
      have := List.append_eq_nil.mp h.symm
      exact utf8Char_ne_nil c this.1
  | cons c cs ih =>
    intro t h
    cases t with
    | nil =>
      exfalso
      simp only [utf8L] at h
      have := List.append_eq_nil.mp h
      exact utf8Char_ne_nil c this.1
    | cons d ds =>
      simp only [utf8L] at h
      have h2 := congrArg utf8DecodeOne h
      rw [utf8DecodeOne_encode, utf8DecodeOne_encode] at h2
      simp only [Option.some.injEq, Prod.mk.injEq] at h2
      obtain ⟨hn, hr⟩ := h2
      rw [char_toNat_inj hn, ih hr]

/-- The base64 digit alphabet is injective on sextet values. -/
theorem sextet_fin_inj : ∀ m n : Fin 64, sextet m.val = sextet n.val → m = n := by decide
/-- No base64 digit is the padding character. -/
theorem sextet_ne_pad_fin : ∀ n : Fin 64, sextet n.val ≠ '=' := by decide
/-- Digit injectivity, lifted to bounded naturals. -/
theorem sextet_inj' {m n : Nat} (hm : m < 64) (hn : n < 64) (h : sextet m = sextet n) : m = n := by
  have := sextet_fin_inj ⟨m, hm⟩ ⟨n, hn⟩ h
  simpa using congrArg Fin.val this
/-- Padding exclusion, lifted to bounded naturals. -/
theorem sextet_ne_pad {n : Nat} (hn : n < 64) : sextet n ≠ '=' :=
  sextet_ne_pad_fin ⟨n, hn⟩

/-- Standard base64 with padding is injective on byte lists. -/
theorem base64_inj : ∀ (l1 l2 : List Nat), (∀ b ∈ l1, b < 256) → (∀ b ∈ l2, b < 256) →
    base64 l1 = base64 l2 → l1 = l2 := by
  have main : ∀ (n : Nat) (l1 l2 : List Nat), l1.length ≤ n →
      (∀ b ∈ l1, b < 256) → (∀ b ∈ l2, b < 256) → base64 l1 = base64 l2 → l1 = l2 := by
    intro n
    induction n with
    | zero =>
      intro l1 l2 hlen h1 h2 h
      have : l1 = [] := by
        cases l1
        · rfl
        · simp at hlen
      subst this
      rcases l2 with _ | ⟨c1, _ | ⟨c2, _ | ⟨c3, r2⟩⟩⟩ <;> simp [base64] at h ⊢
    | succ n ih =>
      intro l1 l2 hlen h1 h2 h
      rcases l1 with _ | ⟨b1, _ | ⟨b2, _ | ⟨b3, r1⟩⟩⟩ <;>
        rcases l2 with _ | ⟨c1, _ | ⟨c2, _ | ⟨c3, r2⟩⟩⟩ <;>
        simp only [base64, List.cons.injEq, List.nil_eq, reduceCtorEq] at h
      -- (1,1)
      · rfl
      -- (2,2)
      · obtain ⟨e1, e2, -⟩ := h
        have hb1 : b1 < 256 := h1 b1 (by simp)
        have hc1 : c1 < 256 := h2 c1 (by simp)
        have g1 := sextet_inj' (by omega) (by omega) e1
        have g2 := sextet_inj' (by omega) (by omega) e2
        have : b1 = c1 := by omega
        rw [this]
      -- (2,3)
      · obtain ⟨-, -, e3, -⟩ := h
        have hc2 : c2 < 256 := h2 c2 (by simp)
        exact absurd e3.symm (sextet_ne_pad (by omega))
      -- (2,4)
      · obtain ⟨-, -, e3, -⟩ := h
        have hc2 : c2 < 256 := h2 c2 (by simp)
        have hc3 : c3 < 256 := h2 c3 (by simp)
        exact absurd e3.symm (sextet_ne_pad (by omega))
      -- (3,2)
      · obtain ⟨-, -, e3, -⟩ := h
        have hb2 : b2 < 256 := h1 b2 (by simp)
        exact absurd e3 (sextet_ne_pad (by omega))
      -- (3,3)
      · obtain ⟨e1, e2, e3, -⟩ := h
        have hb1 : b1 < 256 := h1 b1 (by simp)
        have hb2 : b2 < 256 := h1 b2 (by simp)
        have hc1 : c1 < 256 := h2 c1 (by simp)
        have hc2 : c2 < 256 := h2 c2 (by simp)
        have g1 := sextet_inj' (by omega) (by omega) e1
        have g2 := sextet_inj' (by omega) (by omega) e2
        have g3 := sextet_inj' (by omega) (by omega) e3
        have hb : b1 = c1 ∧ b2 = c2 := by omega
        rw [hb.1, hb.2]
      -- (3,4)
      · obtain ⟨-, -, -, e4, -⟩ := h
        have hc3 : c3 < 256 := h2 c3 (by simp)
        exact absurd e4.symm (sextet_ne_pad (by omega))
      -- (4,2)
      · obtain ⟨-, -, e3, -⟩ := h
        have hb2 : b2 < 256 := h1 b2 (by simp)
        have hb3 : b3 < 256 := h1 b3 (by simp)
        exact absurd e3 (sextet_ne_pad (by omega))
      -- (4,3)
      · obtain ⟨-, -, -, e4, -⟩ := h
        have hb3 : b3 < 256 := h1 b3 (by simp)
        exact absurd e4 (sextet_ne_pad (by omega))
      -- (4,4)
      · obtain ⟨e1, e2, e3, e4, e5⟩ := h
        have hb1 : b1 < 256 := h1 b1 (by simp)
        have hb2 : b2 < 256 := h1 b2 (by simp)
        have hb3 : b3 < 256 := h1 b3 (by simp)
        have hc1 : c1 < 256 := h2 c1 (by simp)
        have hc2 : c2 < 256 := h2 c2 (by simp)
        have hc3 : c3 < 256 := h2 c3 (by simp)
        have g1 := sextet_inj' (by omega) (by omega) e1
        have g2 := sextet_inj' (by omega) (by omega) e2
        have g3 := sextet_inj' (by omega) (by omega) e3
        have g4 := sextet_inj' (by omega) (by omega) e4
        have hb : b1 = c1 ∧ b2 = c2 ∧ b3 = c3 := by omega
        have hr := ih r1 r2 (by simp at hlen; omega)
          (fun b hb => h1 b (by simp [hb])) (fun b hb => h2 b (by simp [hb])) e5
        rw [hb.1, hb.2.1, hb.2.2, hr]
  intro l1 l2 h1 h2 h
  exact main l1.length l1 l2 (Nat.le_refl _) h1 h2 h

/-- C8 counterexample: the key of the query `"aa?"` is `"YWE/.txt"`,
which contains the path separator `/` — standard base64 output is not a
filesystem-safe filename token. -/
theorem cacheKey_not_fs_safe :
    fsSafeToken (cacheKey "aa?") = false ∧ cacheKey "aa?" = "YWE/.txt" := by
  constructor <;> decide

/-- C8 amended: the cache key encoding is deterministic (it is a pure
function of the query) and injective — distinct queries never collide —
but, as the counterexample shows, not every produced key is a
filesystem-safe token. -/
theorem cacheKey_injective (q1 q2 : String) (h : cacheKey q1 = cacheKey q2) :
    q1 = q2 := by
  have hd : base64 (utf8L q1.data) ++ ".txt".data =
      base64 (utf8L q2.data) ++ ".txt".data := congrArg String.data h
  have hb := List.append_cancel_right hd
  have hu := base64_inj _ _ (utf8L_lt q1.data) (utf8L_lt q2.data) hb
  have hq := utf8L_inj hu
  cases q1; cases q2
  exact congrArg String.mk hq

/-- Witness for the amended C8, applying injectivity at a concrete key
equation. -/
theorem cacheKey_injective_witness : ("a" : String) = "a" :=
  cacheKey_injective "a" "a" rfl

end Strike
